import Mathlib

/-!
Verification of the diff-to-comment pipeline of the `ai-code-reviewer`
action (source: `src/main.ts`).  The TypeScript functions are embedded
shallowly as Lean functions; the external collaborators (GitHub client,
completion provider, `parse-diff`, `minimatch`) appear as oracles or as
small executable models, and the observable side effects of a run are
collected into an explicit trace.
-/

set_option autoImplicit false

namespace AICodeReviewer

/-! ## Data model

Mirrors the records the source reads.  `parse-diff` values are embedded
with exactly the fields `main.ts` inspects: a `Change` carries the
optional `ln` (add/del changes), `ln1`/`ln2` (normal changes) and the raw
`content`; a `Chunk` carries its header string `content` and its
`changes`; a `File` carries `to` (the target path, absent for files the
parser could not name) and `chunks`.  `Option String` models a possibly
`undefined`/`null` JS string field. -/

structure Change where
  ln : Option Int
  ln1 : Option Int
  ln2 : Option Int
  content : String
deriving Repr, DecidableEq

structure Chunk where
  content : String
  changes : List Change
deriving Repr, DecidableEq

structure File where
  «to» : Option String
  chunks : List Chunk
deriving Repr, DecidableEq

structure PRDetails where
  owner : String
  repo : String
  pull_number : Int
  title : String
  description : String
  headSha : String
deriving Repr, DecidableEq

/-- ReviewFinding: one element of the `reviews` array the model returns
(`lineNumber` untrusted, kept as the string the provider sent; numeric
JSON values are rendered to their decimal string, which coerces back to
the same number). -/
structure Finding where
  lineNumber : String
  reviewComment : String
deriving Repr, DecidableEq

/-- CommentAnchor: the `\x7bbody, path, line\x7d` record `createComment`
emits.  `line` is the result of the JS `Number(...)` coercion; `none`
models `NaN`. -/
structure Comment where
  body : String
  path : String
  line : Option Int
deriving Repr, DecidableEq

/-! ## JS semantics helpers

String primitives are modelled on the character list of the string (the
core library versions do not reduce inside the kernel); they implement
the usual semantics of the JS methods the source calls. -/

def isWsChar (c : Char) : Bool :=
  c = ' ' || c = '\n' || c = '\t' || c = '\r'

def skipWs : List Char → List Char
  | [] => []
  | c :: cs => if isWsChar c then skipWs cs else c :: cs

/-- Model of `String.prototype.trim`: strip leading and trailing
whitespace. -/
def jsTrim (s : String) : String :=
  String.mk ((skipWs ((skipWs s.data).reverse)).reverse)

/-- Truthiness of an optional JS string: `!x` is true exactly when the
field is `undefined`/`null` or the empty string. -/
def jsFalsyS (o : Option String) : Bool :=
  o.getD ("") = ""

def decDigitsToNat (cs : List Char) : Nat :=
  cs.foldl (fun acc c => acc * 10 + (c.toNat - 48)) 0

/-- Value of a non-empty all-digit character run, else `none`. -/
def charsToNat? (cs : List Char) : Option Nat :=
  if !cs.isEmpty && cs.all Char.isDigit then some (decDigitsToNat cs) else none

/-- Model of the JS `Number(s)` coercion on the integer fragment: the
trimmed string is the empty string (value `0`), or an optional single
sign followed by decimal digits.  Everything else coerces to `NaN`
(`none`).  Fractional, hexadecimal and exponent forms are outside the
model; no claim concerns them. -/
def jsNumber (s : String) : Option Int :=
  match jsTrim s with
  | { data := [] } => some 0
  | { data := '-' :: rest } => (charsToNat? rest).map (fun n => -(n : Int))
  | { data := '+' :: rest } => (charsToNat? rest).map (fun n => (n : Int))
  | { data := cs } => (charsToNat? cs).map (fun n => (n : Int))

/-- Split a character list at every occurrence of `sep`; the JS
`String.prototype.split` semantics (the empty string yields the
one-element list of the empty string). -/
def splitChars (sep : Char) : List Char → List (List Char)
  | [] => [[]]
  | c :: cs =>
    if c = sep then [] :: splitChars sep cs
    else
      match splitChars sep cs with
      | [] => [[c]]
      | g :: gs => (c :: g) :: gs

def splitOnChar (sep : Char) (s : String) : List String :=
  (splitChars sep s.data).map String.mk

/-- Stringification used by a JS template literal on an optional string:
an `undefined` field prints as the text `undefined`. -/
def jsTemplateS (o : Option String) : String :=
  o.getD ("undefined")

/-! ## JSON values and a model of `JSON.parse`

Integer-only numbers and the common escapes; enough to evaluate the
payloads the claims exercise.  A parse that does not consume the whole
input fails, as `JSON.parse` throws on trailing input. -/

inductive Json where
  | null
  | bool (b : Bool)
  | num (n : Int)
  | str (s : String)
  | arr (elems : List Json)
  | obj (fields : List (String × Json))
deriving Repr

def lbrace : Char := Char.ofNat 123

def rbrace : Char := Char.ofNat 125

/-- Decode the body of a JSON string literal after its opening quote,
returning the decoded characters and the input after the closing
quote. -/
def parseStrChars : List Char → Option (List Char × List Char)
  | [] => none
  | '"' :: cs => some ([], cs)
  | '\\' :: e :: cs =>
    let dec : Option Char :=
      if e = '"' then some '"'
      else if e = '\\' then some '\\'
      else if e = '/' then some '/'
      else if e = 'n' then some '\n'
      else if e = 't' then some '\t'
      else if e = 'r' then some '\r'
      else none
    match dec with
    | none => none
    | some d => (parseStrChars cs).map (fun r => (d :: r.1, r.2))
  | c :: cs => (parseStrChars cs).map (fun r => (c :: r.1, r.2))

def parseDigits (cs : List Char) : Option (Nat × List Char) :=
  let ds := cs.takeWhile Char.isDigit
  if ds.isEmpty then none
  else some (ds.foldl (fun acc c => acc * 10 + (c.toNat - 48)) 0, cs.dropWhile Char.isDigit)

mutual

def parseVal : Nat → List Char → Option (Json × List Char)
  | 0, _ => none
  | Nat.succ fuel, cs0 =>
    match skipWs cs0 with
    | [] => none
    | c :: cs =>
      if c = lbrace then
        match skipWs cs with
        | [] => none
        | d :: cs2 =>
          if d = rbrace then some (Json.obj [], cs2)
          else (parseMembers fuel (d :: cs2)).map (fun r => (Json.obj r.1, r.2))
      else if c = '[' then
        match skipWs cs with
        | [] => none
        | d :: cs2 =>
          if d = ']' then some (Json.arr [], cs2)
          else (parseItems fuel (d :: cs2)).map (fun r => (Json.arr r.1, r.2))
      else if c = '"' then
        (parseStrChars cs).map (fun r => (Json.str (String.mk r.1), r.2))
      else if c = '-' then
        (parseDigits cs).map (fun r => (Json.num (-(r.1 : Int)), r.2))
      else if c = 't' then
        if cs.take 3 = [ 'r', 'u', 'e'] then some (Json.bool true, cs.drop 3) else none
      else if c = 'f' then
        if cs.take 4 = [ 'a', 'l', 's', 'e'] then some (Json.bool false, cs.drop 4) else none
      else if c = 'n' then
        if cs.take 3 = [ 'u', 'l', 'l'] then some (Json.null, cs.drop 3) else none
      else if c.isDigit then
        (parseDigits (c :: cs)).map (fun r => (Json.num (r.1 : Int), r.2))
      else none

def parseMembers : Nat → List Char → Option (List (String × Json) × List Char)
  | 0, _ => none
  | Nat.succ fuel, cs0 =>
    match skipWs cs0 with
    | [] => none
    | c :: cs =>
      if c = '"' then
        match parseStrChars cs with
        | none => none
        | some (kcs, cs2) =>
          match skipWs cs2 with
          | [] => none
          | d :: cs3 =>
            if d = ':' then
              match parseVal fuel cs3 with
              | none => none
              | some (v, cs4) =>
                match skipWs cs4 with
                | [] => none
                | e :: cs5 =>
                  if e = ',' then
                    (parseMembers fuel cs5).map (fun r => ((String.mk kcs, v) :: r.1, r.2))
                  else if e = rbrace then some ([(String.mk kcs, v)], cs5)
                  else none
            else none
      else none

def parseItems : Nat → List Char → Option (List Json × List Char)
  | 0, _ => none
  | Nat.succ fuel, cs0 =>
    match parseVal fuel cs0 with
    | none => none
    | some (v, cs1) =>
      match skipWs cs1 with
      | [] => none
      | e :: cs2 =>
        if e = ',' then (parseItems fuel cs2).map (fun r => (v :: r.1, r.2))
        else if e = ']' then some ([v], cs2)
        else none

end

/-- Model of `JSON.parse`: `none` models a thrown `SyntaxError`. -/
def jsonParse (s : String) : Option Json :=
  match parseVal (s.data.length + 1) s.data with
  | none => none
  | some (v, rest) => if (skipWs rest).isEmpty then some v else none

/-- Property lookup on a parsed JSON object, first binding wins. -/
def jLookup (key : String) : List (String × Json) → Option Json
  | [] => none
  | (k, v) :: rest => if k = key then some v else jLookup key rest

/-! ## Review Requester (`getAIResponse`)

The completion transport is an oracle: `AIRaw.err` covers every path on
which the awaited request throws (transport failure, provider error,
missing choices), `AIRaw.success content` a response whose first choice
has the given message content (`none` models an absent content field). -/

inductive AIRaw where
  | err
  | success (content : Option String)
deriving Repr, DecidableEq

/-- Observable result of `getAIResponse`: the function returns `null`
from its catch block (`errNull`), returns JS `undefined` because the
parsed object has no usable `reviews` array (`undef`), or returns the
`reviews` array itself (`ok`). -/
inductive AIResult where
  | errNull
  | undef
  | ok (l : List Finding)
deriving Repr, DecidableEq

/-- The string handed to `JSON.parse`: the trimmed message content, with
the substitute `\x7b\x7d` when the content is absent or trims to the
empty string (source: `response.choices[0].message?.content?.trim() ||
"\x7b\x7d"`). -/
def normalizeContent (content : Option String) : String :=
  match content with
  | none => "\x7b\x7d"
  | some s => if jsTrim s = "" then "\x7b\x7d" else jsTrim s

/-- Decode one element of the `reviews` array into the record shape the
source's type annotation declares (`lineNumber` a string or a JSON
number, `reviewComment` a string). -/
def extractFinding : Json → Option Finding
  | Json.obj fields =>
    match jLookup ("lineNumber") fields, jLookup ("reviewComment") fields with
    | some (Json.str s), some (Json.str c) => some { lineNumber := s, reviewComment := c }
    | some (Json.num n), some (Json.str c) => some { lineNumber := toString n, reviewComment := c }
    | _, _ => none
  | _ => none

def extractFindings : Json → Option (List Finding)
  | Json.arr elems => elems.mapM extractFinding
  | _ => none

/-- Embedding of `getAIResponse` (source lines 177-193).  Returns the
result together with a flag recording whether `console.error` ran (it
runs exactly on the catch path).  A parsed top-level `null` makes
`null.reviews` throw a TypeError, which the same catch block turns into
a logged `null` return.  A `reviews` field that is present but is not an
array of well-typed findings is collapsed to `undef`; for falsy such
values this matches the source (the caller skips falsy responses), and
no claim exercises the truthy ill-typed case, which the source can only
surface later as a fatal TypeError in `createComment`. -/
def getAIResponse (raw : AIRaw) : AIResult × Bool :=
  match raw with
  | AIRaw.err => (AIResult.errNull, true)
  | AIRaw.success content =>
    match jsonParse (normalizeContent content) with
    | none => (AIResult.errNull, true)
    | some Json.null => (AIResult.errNull, true)
    | some (Json.obj fields) =>
      match jLookup ("reviews") fields with
      | none => (AIResult.undef, false)
      | some v =>
        match extractFindings v with
        | some l => (AIResult.ok l, false)
        | none => (AIResult.undef, false)
    | some _ => (AIResult.undef, false)

/-! ## Prompt Builder (`createPrompt`) -/

/-- One line of the diff body embedded in the prompt: the source maps
each change `c` to `c.ln + " " + c.content` when `c.ln` is defined, else
`c.ln2 + " " + c.content` when `c.ln2` is defined, else the bare
content. -/
def changeLine (c : Change) : String :=
  match c.ln with
  | some n => toString n ++ " " ++ c.content
  | none =>
    match c.ln2 with
    | some n => toString n ++ " " ++ c.content
    | none => c.content

/-- Embedding of `createPrompt` (source lines 131-175): the template
literal, with each interpolation spliced in place and the diff body
rebuilt by `changeLine` joined with newlines. -/
def createPrompt (file : File) (chunk : Chunk) (prDetails : PRDetails)
    (fullFile : String) : String :=
  "Your task is to review pull requests. Instructions:\n" ++
  "- Provide the response in following JSON format:  \x7b\"reviews\": [\x7b\"lineNumber\":  <line_number>, \"reviewComment\": \"<review comment>\"\x7d]\x7d\n" ++
  "- Do not give positive comments or compliments.\n" ++
  "- Provide comments and suggestions ONLY if there is something to improve, otherwise \"reviews\" should be an empty array.\n" ++
  "- Write the comment in GitHub Markdown format.\n" ++
  "- Use the given description only for the overall context and only comment the code.\n" ++
  "- IMPORTANT: NEVER suggest adding comments to the code.\n" ++
  "\n" ++
  "You are reviewing changes in file: " ++ jsTemplateS file.to ++ "\n" ++
  "\n" ++
  "Pull request title: " ++ prDetails.title ++ "\n" ++
  "Pull request description:\n" ++
  "---\n" ++
  prDetails.description ++ "\n" ++
  "---\n" ++
  "\n" ++
  "Here is the full content of the file after the changes:\n" ++
  "```ts\n" ++
  fullFile ++ "\n" ++
  "```\n" ++
  "\n" ++
  "And here is the diff to focus on:\n" ++
  "```diff\n" ++
  chunk.content ++ "\n" ++
  String.intercalate "\n" (chunk.changes.map changeLine) ++ "\n" ++
  "\n" ++
  "```\n"

/-! ## Comment Projector (`createComment`) -/

/-- Embedding of `createComment` (source lines 195-208): for each
finding, the empty list when `!file.to`, otherwise the single anchor
with the JS numeric coercion of `lineNumber` as its line.  Note the
source applies no numeric validation: `Number` is applied
unconditionally. -/
def createComment (file : File) (chunk : Chunk) (aiResponses : List Finding) :
    List Comment :=
  aiResponses.flatMap (fun aiResponse =>
    if jsFalsyS file.to then []
    else [{ body := aiResponse.reviewComment
            path := file.to.getD ("")
            line := jsNumber aiResponse.lineNumber }])

/-! ## Effects and the per-run state

Every externally observable action of a run is recorded as one trace
entry, in program order. -/

inductive Effect where
  | readEventFile
  | apiGetPR
  | apiGetDiff
  | apiCompareCommits
  | apiGetContent (path : String)
  | logWarn
  | aiRequest (prompt : String)
  | logError
  | apiCreateReview (comments : List Comment) (event : String)
deriving Repr, DecidableEq

/-- Oracles for the two effectful collaborators `analyzeCode` uses: the
file-content endpoint (`none` models a thrown fetch error) and the
completion provider. -/
structure Env where
  fetchContent : String → Option String
  ai : String → AIRaw

/-- Mutable state of one `analyzeCode` run: the `fileCache` object (an
association list, newest binding first, as JS assignment shadows), the
aggregated `comments`, and the effect trace. -/
structure AState where
  cache : List (String × String)
  comments : List Comment
  trace : List Effect
deriving Repr

def lookupCache (cache : List (String × String)) (p : String) : Option String :=
  (cache.find? (fun kv => kv.1 = p)).map (fun kv => kv.2)

/-- Body of the inner chunk loop of `analyzeCode` (source lines
116-125): build the prompt, issue one completion request, and append the
projected comments when the response is truthy. -/
def processChunk (env : Env) (pr : PRDetails) (file : File) (content : String)
    (st : AState) (chunk : Chunk) : AState :=
  let prompt := createPrompt file chunk pr content
  let r := getAIResponse (env.ai prompt)
  let tr := st.trace ++ [Effect.aiRequest prompt] ++ (if r.2 then [Effect.logError] else [])
  match r.1 with
  | AIResult.errNull => { st with trace := tr }
  | AIResult.undef => { st with trace := tr }
  | AIResult.ok l =>
    { st with trace := tr, comments := st.comments ++ createComment file chunk l }

/-- Body of the outer file loop of `analyzeCode` (source lines 97-126):
skip deleted (`/dev/null`) and falsy targets, consult the cache with the
source's `!fileCache[file.to]` test, fetch on that test (caching the
empty string and warning on failure), then run every chunk. -/
def processFile (env : Env) (pr : PRDetails) (st : AState) (file : File) : AState :=
  if file.to = some ("/dev/null") then st
  else if jsFalsyS file.to then st
  else
    let path := file.to.getD ("")
    let st1 : AState :=
      if (lookupCache st.cache path).getD ("") = "" then
        match env.fetchContent path with
        | some c =>
          { st with cache := (path, c) :: st.cache
                    trace := st.trace ++ [Effect.apiGetContent path] }
        | none =>
          { st with cache := (path, "") :: st.cache
                    trace := st.trace ++ [Effect.apiGetContent path, Effect.logWarn] }
      else st
    let content := (lookupCache st1.cache path).getD ("")
    file.chunks.foldl (processChunk env pr file content) st1

def analyzeCodeGo (env : Env) (pr : PRDetails) (st : AState) (files : List File) :
    AState :=
  files.foldl (processFile env pr) st

/-- Embedding of `analyzeCode` (source lines 90-129), starting from the
empty cache, comment list and trace. -/
def analyzeCode (env : Env) (pr : PRDetails) (parsedDiff : List File) : AState :=
  analyzeCodeGo env pr { cache := [], comments := [], trace := [] } parsedDiff

/-! ## Path Filter -/

/-- Star-glob matcher on one path segment, fuelled so it reduces by
iota inside the kernel: every recursive call shrinks the combined
length of the two lists, so the fuel `segMatch` supplies is always
sufficient. -/
def segMatchF : Nat → List Char → List Char → Bool
  | 0, _, _ => false
  | Nat.succ f, ps0, cs0 =>
    match ps0, cs0 with
    | [], [] => true
    | [], _ :: _ => false
    | '*' :: ps, [] => segMatchF f ps []
    | '*' :: ps, c :: cs => segMatchF f ps (c :: cs) || segMatchF f ('*' :: ps) cs
    | _ :: _, [] => false
    | p :: ps, c :: cs => p = c && segMatchF f ps cs

/-- Star-glob matcher on one path segment: a model of the `minimatch`
core for patterns built from literal characters and `*` (which matches
any run of characters within a segment). -/
def segMatch (ps cs : List Char) : Bool :=
  segMatchF (ps.length + cs.length + 1) ps cs

/-- Model of `minimatch(path, pattern)` for literal-and-`*` patterns:
the path and pattern are split on `/` and matched segmentwise, as
`minimatch` never lets `*` cross a path separator. -/
def globMatch (path pattern : String) : Bool :=
  let psegs := splitChars '/' pattern.data
  let csegs := splitChars '/' path.data
  psegs.length == csegs.length &&
    (List.zip psegs csegs).all (fun pc => segMatch pc.1 pc.2)

/-- The `exclude` input processing (source lines 258-261):
`core.getInput("exclude").split(",").map((s) => s.trim())`.  Note the
empty input yields the one-element list containing the empty pattern,
never the empty list. -/
def parseExclude (s : String) : List String :=
  (splitOnChar ',' s).map jsTrim

/-- Embedding of the `filteredDiff` expression (source lines 262-265),
parametric in the matcher so the universally quantified claims range
over every matcher semantics: a file survives when no pattern matches
`file.to ?? ""`. -/
def filteredDiff (m : String → String → Bool) (excludePatterns : List String)
    (parsedDiff : List File) : List File :=
  parsedDiff.filter (fun file =>
    ! excludePatterns.any (fun pattern => m (file.to.getD ("")) pattern))

/-! ## Orchestrator (`main`) -/

/-- Environment of one whole run: the triggering event, the values the
external endpoints would return, and the two library oracles
(`parse-diff` and `minimatch`). -/
structure MainEnv where
  eventAction : String
  prDetails : PRDetails
  openedDiff : Option String
  syncDiff : String
  excludeInput : String
  minimatch : String → String → Bool
  parse : String → List File
  fetchContent : String → Option String
  ai : String → AIRaw

/-- The `analyzeCode` state produced from a fetched diff text, after
parsing and filtering. -/
def runFiltered (env : MainEnv) (d : String) : AState :=
  analyzeCode { fetchContent := env.fetchContent, ai := env.ai } env.prDetails
    (filteredDiff env.minimatch (parseExclude env.excludeInput) (env.parse d))

/-- Tail of `main` once a non-falsy diff text is in hand (source lines
257-275): parse, filter, analyze, and submit one batched review exactly
when the aggregated comment list is non-empty. -/
def mainRest (env : MainEnv) (d : String) (tr : List Effect) : List Effect :=
  let st := runFiltered env d
  tr ++ st.trace ++
    (if st.comments.isEmpty then []
     else [Effect.apiCreateReview st.comments ("COMMENT")])

/-- Embedding of `main` (source lines 225-276) as its effect trace.
`getPRDetails` runs first (event read plus the PR metadata request),
the event payload is read again, and only then is the action examined;
an unsupported action logs and returns, and a falsy diff (null or the
empty string) also returns early. -/
def main (env : MainEnv) : List Effect :=
  let tr0 := [Effect.readEventFile, Effect.apiGetPR, Effect.readEventFile]
  if env.eventAction = "opened" then
    let tr1 := tr0 ++ [Effect.apiGetDiff]
    match env.openedDiff with
    | none => tr1
    | some d => if d = "" then tr1 else mainRest env d tr1
  else if env.eventAction = "synchronize" then
    let tr1 := tr0 ++ [Effect.apiCompareCommits]
    if env.syncDiff = "" then tr1 else mainRest env env.syncDiff tr1
  else tr0

/-- The anchor sequence a run aggregates: the comments `analyzeCode`
returns on the branches that reach it, and the empty sequence on the
early-exit branches. -/
def runComments (env : MainEnv) : List Comment :=
  if env.eventAction = "opened" then
    match env.openedDiff with
    | none => []
    | some d => if d = "" then [] else (runFiltered env d).comments
  else if env.eventAction = "synchronize" then
    if env.syncDiff = "" then [] else (runFiltered env env.syncDiff).comments
  else []

/-- The diff text a run reviews, when any: `none` on the
unsupported-action and falsy-diff early exits.  Used only to state and
prove trace properties of `main`. -/
def mainDiff (env : MainEnv) : Option String :=
  if env.eventAction = "opened" then
    match env.openedDiff with
    | none => none
    | some d => if d = "" then none else some d
  else if env.eventAction = "synchronize" then
    if env.syncDiff = "" then none else some env.syncDiff
  else none

/-! ## Hunk lines as the specification describes them

The specification data model classifies each hunk line as added,
removed, context, or a bare separator, carrying `newLineNumber` and
`oldLineNumber` as its kind admits.  `toChange` renders such a line as
the `parse-diff` record the source iterates over: add and del changes
carry `ln` (the new, resp. old, number), normal changes carry
`ln1`/`ln2`. -/

inductive Line where
  | added (newLn : Int) (content : String)
  | removed (oldLn : Int) (content : String)
  | context (oldLn : Int) (newLn : Int) (content : String)
  | separator (content : String)
deriving Repr, DecidableEq

def toChange : Line → Change
  | Line.added n c => { ln := some n, ln1 := none, ln2 := none, content := c }
  | Line.removed o c => { ln := some o, ln1 := none, ln2 := none, content := c }
  | Line.context o n c => { ln := none, ln1 := some o, ln2 := some n, content := c }
  | Line.separator c => { ln := none, ln1 := none, ln2 := none, content := c }

def newLineNumber : Line → Option Int
  | Line.added n _ => some n
  | Line.context _ n _ => some n
  | _ => none

def oldLineNumber : Line → Option Int
  | Line.removed o _ => some o
  | Line.context o _ _ => some o
  | _ => none

def lineContent : Line → String
  | Line.added _ c => c
  | Line.removed _ c => c
  | Line.context _ _ c => c
  | Line.separator c => c

/-- The rendering the specification asks for: the line number prefix is
the `newLineNumber` when present, else the `oldLineNumber` when
present, else nothing. -/
def specLineText (l : Line) : String :=
  match newLineNumber l with
  | some n => toString n ++ " " ++ lineContent l
  | none =>
    match oldLineNumber l with
    | some n => toString n ++ " " ++ lineContent l
    | none => lineContent l

/-! ## Auxiliary predicates used by the statements -/

def isCreateReview : Effect → Bool
  | Effect.apiCreateReview _ _ => true
  | _ => false

/-- The submission suffix of a run that reviews diff text `d`. -/
def submitSuffix (env : MainEnv) (d : String) : List Effect :=
  if (runFiltered env d).comments.isEmpty then []
  else [Effect.apiCreateReview (runFiltered env d).comments ("COMMENT")]

/-- The failure modes of the completion step that claim C4 enumerates:
the request throws (transport or provider error), the message content is
not parseable JSON, or it parses to an object with no `reviews`
field. -/
def completionFailure (raw : AIRaw) : Prop :=
  raw = AIRaw.err ∨
  ∃ s, raw = AIRaw.success (some s) ∧
    (jsonParse (normalizeContent (some s)) = none ∨
     ∃ fields, jsonParse (normalizeContent (some s)) = some (Json.obj fields) ∧
       jLookup ("reviews") fields = none)

/-- A concrete closed run environment, used to instantiate universally
quantified theorems: a pull request event with action "closed". -/
def sampleEnv : MainEnv where
  eventAction := "closed"
  prDetails := { owner := "o", repo := "r", pull_number := 1, title := "t",
                 description := "", headSha := "s" }
  openedDiff := none
  syncDiff := ""
  excludeInput := ""
  minimatch := globMatch
  parse := fun _ => []
  fetchContent := fun _ => none
  ai := fun _ => AIRaw.err

/-! ## Helper lemmas -/

lemma countP_append_none (l extra : List Effect)
    (h : ∀ e ∈ extra, isCreateReview e = false) :
    (l ++ extra).countP isCreateReview = l.countP isCreateReview := by
  rw [List.countP_append]
  have hz : extra.countP isCreateReview = 0 := List.countP_eq_zero.mpr (by simpa using h)
  omega

lemma createComment_path (file : File) (chunk : Chunk) (rs : List Finding) :
    ∀ c ∈ createComment file chunk rs, c.path = file.to.getD ("") := by
  intro c hc
  simp only [createComment, List.mem_flatMap] at hc
  obtain ⟨r, _, hc⟩ := hc
  split at hc
  · simp at hc
  · simp only [List.mem_singleton] at hc
    subst hc
    rfl

lemma processChunk_comments (env : Env) (pr : PRDetails) (file : File)
    (content : String) (st : AState) (chunk : Chunk) :
    ∀ c ∈ (processChunk env pr file content st chunk).comments,
      c ∈ st.comments ∨ c.path = file.to.getD ("") := by
  intro c hc
  simp only [processChunk] at hc
  split at hc
  · exact Or.inl hc
  · exact Or.inl hc
  · simp only [List.mem_append] at hc
    rcases hc with hc | hc
    · exact Or.inl hc
    · exact Or.inr (createComment_path file chunk _ c hc)

lemma processChunk_cache (env : Env) (pr : PRDetails) (file : File)
    (content : String) (st : AState) (chunk : Chunk) :
    (processChunk env pr file content st chunk).cache = st.cache := by
  simp only [processChunk]
  split <;> rfl

lemma processChunk_trace_count (env : Env) (pr : PRDetails) (file : File)
    (content : String) (st : AState) (chunk : Chunk) :
    ((processChunk env pr file content st chunk).trace).countP isCreateReview
      = st.trace.countP isCreateReview := by
  simp only [processChunk]
  have hextra : ∀ p : String, ∀ b : Bool,
      ∀ e ∈ [Effect.aiRequest p] ++ (if b then [Effect.logError] else []),
        isCreateReview e = false := by
    intro p b e he
    rcases b <;> simp at he <;> rcases he with rfl | rfl <;> rfl
  split <;>
    simpa [List.append_assoc] using
      countP_append_none st.trace _ (hextra _ _)

lemma processChunk_skip (env : Env) (pr : PRDetails) (file : File)
    (content : String) (st : AState) (chunk : Chunk)
    (h : (getAIResponse (env.ai (createPrompt file chunk pr content))).1 = AIResult.errNull ∨
         (getAIResponse (env.ai (createPrompt file chunk pr content))).1 = AIResult.undef) :
    (processChunk env pr file content st chunk).comments = st.comments ∧
    (processChunk env pr file content st chunk).cache = st.cache := by
  refine ⟨?_, processChunk_cache env pr file content st chunk⟩
  simp only [processChunk]
  split
  · rfl
  · rfl
  · rcases h with h | h <;> simp_all

lemma foldChunks_comments (env : Env) (pr : PRDetails) (file : File)
    (content : String) :
    ∀ (chunks : List Chunk) (st : AState),
      ∀ c ∈ (chunks.foldl (processChunk env pr file content) st).comments,
        c ∈ st.comments ∨ c.path = file.to.getD ("") := by
  intro chunks
  induction chunks with
  | nil => intro st c hc; exact Or.inl hc
  | cons ch rest ih =>
    intro st c hc
    rw [List.foldl_cons] at hc
    rcases ih _ c hc with h | h
    · exact processChunk_comments env pr file content st ch c h
    · exact Or.inr h

lemma foldChunks_trace_count (env : Env) (pr : PRDetails) (file : File)
    (content : String) :
    ∀ (chunks : List Chunk) (st : AState),
      ((chunks.foldl (processChunk env pr file content) st).trace).countP isCreateReview
        = st.trace.countP isCreateReview := by
  intro chunks
  induction chunks with
  | nil => intro st; rfl
  | cons ch rest ih =>
    intro st
    rw [List.foldl_cons, ih, processChunk_trace_count]

lemma jsFalsyS_false (o : Option String) (h : jsFalsyS o = false) :
    ∃ p, o = some p ∧ p ≠ "" := by
  cases o with
  | none => simp [jsFalsyS] at h
  | some p =>
    refine ⟨p, rfl, ?_⟩
    simpa [jsFalsyS] using h

lemma processFile_comments (env : Env) (pr : PRDetails) (st : AState) (file : File) :
    ∀ c ∈ (processFile env pr st file).comments,
      c ∈ st.comments ∨ (c.path ≠ "/dev/null" ∧ c.path ≠ "") := by
  intro c hc
  simp only [processFile] at hc
  split at hc
  · exact Or.inl hc
  · rename_i hdev
    split at hc
    · exact Or.inl hc
    · rename_i hfalsy
      obtain ⟨p, hp, hpne⟩ := jsFalsyS_false file.to (by simpa using hfalsy)
      rcases foldChunks_comments env pr file _ file.chunks _ c hc with h | h
      · split at h
        · split at h
          · exact Or.inl h
          · exact Or.inl h
        · exact Or.inl h
      · right
        rw [h, hp]
        refine ⟨?_, by simpa using hpne⟩
        simp only [Option.getD_some]
        intro hcontra
        exact hdev (by rw [hp, hcontra])

lemma processFile_trace_count (env : Env) (pr : PRDetails) (st : AState) (file : File) :
    ((processFile env pr st file).trace).countP isCreateReview
      = st.trace.countP isCreateReview := by
  simp only [processFile]
  split
  · rfl
  · split
    · rfl
    · rw [foldChunks_trace_count]
      split
      · split
        · refine countP_append_none st.trace _ ?_
          intro e he
          simp at he
          subst he
          rfl
        · refine countP_append_none st.trace _ ?_
          intro e he
          simp at he
          rcases he with rfl | rfl <;> rfl
      · rfl

lemma analyzeCodeGo_comments (env : Env) (pr : PRDetails) :
    ∀ (files : List File) (st : AState),
      ∀ c ∈ (analyzeCodeGo env pr st files).comments,
        c ∈ st.comments ∨ (c.path ≠ "/dev/null" ∧ c.path ≠ "") := by
  intro files
  induction files with
  | nil => intro st c hc; exact Or.inl hc
  | cons f rest ih =>
    intro st c hc
    simp only [analyzeCodeGo, List.foldl_cons] at hc
    rcases ih _ c hc with h | h
    · exact processFile_comments env pr st f c h
    · exact Or.inr h

lemma analyzeCodeGo_trace_count (env : Env) (pr : PRDetails) :
    ∀ (files : List File) (st : AState),
      ((analyzeCodeGo env pr st files).trace).countP isCreateReview
        = st.trace.countP isCreateReview := by
  intro files
  induction files with
  | nil => intro st; rfl
  | cons f rest ih =>
    intro st
    simp only [analyzeCodeGo, List.foldl_cons] at ih ⊢
    rw [ih, processFile_trace_count]

lemma analyzeCode_comments (env : Env) (pr : PRDetails) (files : List File) :
    ∀ c ∈ (analyzeCode env pr files).comments,
      c.path ≠ "/dev/null" ∧ c.path ≠ "" := by
  intro c hc
  rcases analyzeCodeGo_comments env pr files _ c hc with h | h
  · simp at h
  · exact h

lemma analyzeCode_trace_count (env : Env) (pr : PRDetails) (files : List File) :
    ((analyzeCode env pr files).trace).countP isCreateReview = 0 :=
  analyzeCodeGo_trace_count env pr files _

lemma analyzeCode_trace_no_create (env : Env) (pr : PRDetails) (files : List File)
    (cs : List Comment) (ev : String) :
    Effect.apiCreateReview cs ev ∉ (analyzeCode env pr files).trace := by
  intro h
  have := List.countP_eq_zero.mp (analyzeCode_trace_count env pr files) _ h
  simp [isCreateReview] at this

lemma main_shape (env : MainEnv) :
    ∃ pre, (∀ e ∈ pre, isCreateReview e = false) ∧
      main env = pre ++ (match mainDiff env with
        | none => []
        | some d => (runFiltered env d).trace ++ submitSuffix env d) ∧
      runComments env = (match mainDiff env with
        | none => []
        | some d => (runFiltered env d).comments) := by
  by_cases h1 : env.eventAction = "opened"
  · cases hod : env.openedDiff with
    | none =>
      refine ⟨[Effect.readEventFile, Effect.apiGetPR, Effect.readEventFile,
               Effect.apiGetDiff], ?_, ?_, ?_⟩
      · intro e he
        simp at he
        rcases he with rfl | rfl | rfl | rfl <;> rfl
      · simp [main, mainDiff, h1, hod]
      · simp [runComments, mainDiff, h1, hod]
    | some d =>
      by_cases hd : d = ""
      · refine ⟨[Effect.readEventFile, Effect.apiGetPR, Effect.readEventFile,
                 Effect.apiGetDiff], ?_, ?_, ?_⟩
        · intro e he
          simp at he
          rcases he with rfl | rfl | rfl | rfl <;> rfl
        · simp [main, mainDiff, h1, hod, hd]
        · simp [runComments, mainDiff, h1, hod, hd]
      · refine ⟨[Effect.readEventFile, Effect.apiGetPR, Effect.readEventFile,
                 Effect.apiGetDiff], ?_, ?_, ?_⟩
        · intro e he
          simp at he
          rcases he with rfl | rfl | rfl | rfl <;> rfl
        · simp [main, mainDiff, mainRest, submitSuffix, h1, hod, hd, List.append_assoc]
        · simp [runComments, mainDiff, h1, hod, hd]
  · by_cases h2 : env.eventAction = "synchronize"
    · by_cases hd : env.syncDiff = ""
      · refine ⟨[Effect.readEventFile, Effect.apiGetPR, Effect.readEventFile,
                 Effect.apiCompareCommits], ?_, ?_, ?_⟩
        · intro e he
          simp at he
          rcases he with rfl | rfl | rfl | rfl <;> rfl
        · simp [main, mainDiff, h1, h2, hd]
        · simp [runComments, mainDiff, h1, h2, hd]
      · refine ⟨[Effect.readEventFile, Effect.apiGetPR, Effect.readEventFile,
                 Effect.apiCompareCommits], ?_, ?_, ?_⟩
        · intro e he
          simp at he
          rcases he with rfl | rfl | rfl | rfl <;> rfl
        · simp [main, mainDiff, mainRest, submitSuffix, h1, h2, hd, List.append_assoc]
        · simp [runComments, mainDiff, h1, h2, hd]
    · refine ⟨[Effect.readEventFile, Effect.apiGetPR, Effect.readEventFile], ?_, ?_, ?_⟩
      · intro e he
        simp at he
        rcases he with rfl | rfl | rfl <;> rfl
      · simp [main, mainDiff, h1, h2]
      · simp [runComments, mainDiff, h1, h2]

lemma main_count (env : MainEnv) :
    (main env).countP isCreateReview = if runComments env = [] then 0 else 1 := by
  obtain ⟨pre, hpre, hmain, hrc⟩ := main_shape env
  have hpre0 : pre.countP isCreateReview = 0 := List.countP_eq_zero.mpr (by simpa using hpre)
  rw [hmain, hrc, List.countP_append, hpre0]
  cases hd : mainDiff env with
  | none => simp
  | some d =>
    simp only [List.countP_append]
    have h0 : ((runFiltered env d).trace).countP isCreateReview = 0 :=
      analyzeCode_trace_count _ _ _
    rw [h0]
    by_cases hcl : (runFiltered env d).comments = []
    · simp [submitSuffix, hcl]
    · obtain ⟨a, l, hal⟩ := List.exists_cons_of_ne_nil hcl
      simp [submitSuffix, hal, isCreateReview, hcl]

lemma main_createReview_mem (env : MainEnv) (cs : List Comment) (ev : String)
    (h : Effect.apiCreateReview cs ev ∈ main env) :
    cs = runComments env ∧ ev = "COMMENT" ∧ cs ≠ [] := by
  obtain ⟨pre, hpre, hmain, hrc⟩ := main_shape env
  rw [hmain] at h
  rcases List.mem_append.mp h with h | h
  · have := hpre _ h
    simp [isCreateReview] at this
  · cases hd : mainDiff env with
    | none =>
      rw [hd] at h
      simp at h
    | some d =>
      rw [hd] at h hrc
      rcases List.mem_append.mp h with h | h
      · exact absurd h (analyzeCode_trace_no_create _ _ _ cs ev)
      · simp only [submitSuffix] at h
        cases hcl : (runFiltered env d).comments with
        | nil => simp [hcl] at h
        | cons a l =>
          rw [hcl] at h
          simp at h
          obtain ⟨hcs, hev⟩ := h
          refine ⟨?_, hev, by rw [hcs]; simp⟩
          rw [hrc]
          show cs = (runFiltered env d).comments
          rw [hcl, hcs]

lemma runComments_good (env : MainEnv) :
    ∀ c ∈ runComments env, c.path ≠ "/dev/null" ∧ c.path ≠ "" := by
  intro c hc
  obtain ⟨pre, hpre, hmain, hrc⟩ := main_shape env
  rw [hrc] at hc
  cases hd : mainDiff env with
  | none =>
    rw [hd] at hc
    simp at hc
  | some d =>
    rw [hd] at hc
    exact analyzeCode_comments _ _ _ c hc

/-! ## The claims -/

/-- Claim C1, counterexample.  The claim states that a `ReviewFinding`
whose `lineNumber` does not coerce to an integer yields no
`CommentAnchor`.  The source applies `Number(aiResponse.lineNumber)`
unconditionally and never tests the result, so the finding with
`lineNumber = "abc"` and a present target path still yields exactly one
anchor, whose `line` is `NaN` (modelled `none`). -/
theorem c1_counterexample :
    jsNumber ("abc") = none ∧
    createComment { «to» := some ("a.ts"), chunks := [] } { content := "", changes := [] }
        [{ lineNumber := "abc", reviewComment := "x" }]
      = [{ body := "x", path := "a.ts", line := none }] := by
  exact ⟨by decide, by decide⟩

/-- Claim C1, amended.  `createComment` emits no anchor for any finding
when the target path is falsy; when the target path is a present
non-empty string it emits exactly one anchor per finding, whose body is
the `reviewComment`, whose path is the target path, and whose line is
the unchecked JS numeric coercion of `lineNumber` (`NaN` when the
string is non-numeric).  In particular, for a numeric `lineNumber` the
anchor line equals the coerced integer, as the original claim says. -/
theorem c1_projection : ∀ (file : File) (chunk : Chunk) (rs : List Finding),
    (jsFalsyS file.to = true → createComment file chunk rs = []) ∧
    (∀ p, file.to = some p → p ≠ "" →
      createComment file chunk rs
        = rs.map (fun r =>
            { body := r.reviewComment, path := p, line := jsNumber r.lineNumber })) := by
  intro file chunk rs
  constructor
  · intro h
    simp [createComment, h]
  · intro p hp hpne
    have hf : jsFalsyS file.to = false := by
      simp [jsFalsyS, hp, hpne]
    induction rs with
    | nil => rfl
    | cons r rest ih =>
      simp only [createComment, List.flatMap_cons, hf, Bool.false_eq_true, if_false,
        List.map_cons] at ih ⊢
      rw [ih]
      simp [hp]

/-- Witness for `c1_projection` at a concrete numeric finding. -/
theorem c1_witness :
    createComment { «to» := some ("a.ts"), chunks := [] } { content := "", changes := [] }
        [{ lineNumber := "42", reviewComment := "m" }]
      = [{ body := "m", path := "a.ts", line := some 42 }] := by
  have h := (c1_projection { «to» := some ("a.ts"), chunks := [] }
      { content := "", changes := [] }
      [{ lineNumber := "42", reviewComment := "m" }]).2 ("a.ts") rfl (by decide)
  rw [h]
  decide

/-- Claim C2, counterexample.  The claim states that the filter output
never contains a FileChange whose target path is absent or is the
deletion sentinel.  The `filteredDiff` expression tests only the
exclusion patterns (against `file.to ?? ""`): with pattern set
`["*.md"]`, a FileChange with `to = null` and one with
`to = "/dev/null"` both survive the filter (they are only skipped later,
inside `analyzeCode`). -/
theorem c2_counterexample :
    filteredDiff globMatch [("*.md")] [{ «to» := none, chunks := [] }]
      = [{ «to» := none, chunks := [] }] ∧
    filteredDiff globMatch [("*.md")] [{ «to» := some ("/dev/null"), chunks := [] }]
      = [{ «to» := some ("/dev/null"), chunks := [] }] := by
  exact ⟨by decide, by decide⟩

/-- Claim C2, amended.  The filter output is the order-preserving
subsequence (a sublist) keeping exactly the FileChanges for which no
exclusion pattern matches `targetPath ?? ""`; deletion-sentinel and
absent target paths are not dropped here unless a pattern happens to
match.  With the empty pattern list everything passes through. -/
theorem c2_filter : ∀ (m : String → String → Bool) (patterns : List String)
    (files : List File),
    List.Sublist (filteredDiff m patterns files) files ∧
    (∀ f, f ∈ filteredDiff m patterns files ↔
      (f ∈ files ∧ patterns.any (fun pattern => m (f.to.getD ("")) pattern) = false)) ∧
    filteredDiff m [] files = files := by
  intro m patterns files
  refine ⟨List.filter_sublist files, ?_, ?_⟩
  · intro f
    simp [filteredDiff, List.mem_filter]
  · simp [filteredDiff]

/-- Witness for `c2_filter`: the empty pattern list lets a file
through. -/
theorem c2_witness :
    filteredDiff globMatch [] [{ «to» := some ("README.md"), chunks := [] }]
      = [{ «to» := some ("README.md"), chunks := [] }] :=
  (c2_filter globMatch [] [{ «to» := some ("README.md"), chunks := [] }]).2.2

/-- Claim C3, counterexample.  The claim states that with action
"closed" no API call is made beyond reading the event payload.  But
`main` awaits `getPRDetails()` — which issues the `octokit.pulls.get`
metadata request — before it ever inspects the action, so the trace of
the run contains that API call. -/
theorem c3_counterexample : Effect.apiGetPR ∈ main sampleEnv := by
  rw [show main sampleEnv
      = [Effect.readEventFile, Effect.apiGetPR, Effect.readEventFile] by decide]
  simp

/-- Claim C3, amended.  For any action other than "opened" and
"synchronize" the run exits cleanly with no diff fetch: the whole trace
is the event read, the PR metadata request issued by `getPRDetails`,
and the second event read.  One API call beyond reading the event
payload therefore does occur. -/
theorem c3_unsupported_event : ∀ env : MainEnv,
    env.eventAction ≠ "opened" → env.eventAction ≠ "synchronize" →
    main env = [Effect.readEventFile, Effect.apiGetPR, Effect.readEventFile] := by
  intro env h1 h2
  simp [main, h1, h2]

/-- Witness for `c3_unsupported_event` at action "closed". -/
theorem c3_witness :
    main sampleEnv = [Effect.readEventFile, Effect.apiGetPR, Effect.readEventFile] :=
  c3_unsupported_event sampleEnv (by decide) (by decide)

/-- Claim C4, counterexample.  The claim states that every enumerated
failure — including a response whose JSON lacks the `reviews` field —
is logged.  A successful completion whose content parses to an object
without `reviews` makes `JSON.parse(res).reviews` evaluate to
`undefined` with no exception, so `getAIResponse` returns without ever
reaching `console.error`: the logged flag is `false`. -/
theorem c4_counterexample :
    completionFailure (AIRaw.success (some "\x7b\"other\": 1\x7d")) ∧
    getAIResponse (AIRaw.success (some "\x7b\"other\": 1\x7d"))
      = (AIResult.undef, false) := by
  refine ⟨Or.inr ⟨"\x7b\"other\": 1\x7d", rfl,
    Or.inr ⟨[("other", Json.num 1)], rfl, rfl⟩⟩, rfl⟩

/-- Claim C4, amended.  On each enumerated failure of the completion
step the hunk contributes no findings and the run continues: a thrown
request or a non-JSON content returns `null` after logging the error,
while a parsed object with no `reviews` field silently returns
`undefined` (no log).  In every such case the chunk loop body leaves
the aggregated comments and the file cache untouched, so sibling hunks
proceed unaffected. -/
theorem c4_failure_isolation : ∀ raw, completionFailure raw →
    (getAIResponse raw = (AIResult.errNull, true) ∨
     getAIResponse raw = (AIResult.undef, false)) ∧
    (∀ env pr file content st chunk,
      env.ai (createPrompt file chunk pr content) = raw →
      (processChunk env pr file content st chunk).comments = st.comments ∧
      (processChunk env pr file content st chunk).cache = st.cache) := by
  intro raw hfail
  have hres : getAIResponse raw = (AIResult.errNull, true) ∨
      getAIResponse raw = (AIResult.undef, false) := by
    rcases hfail with rfl | ⟨s, rfl, hcase⟩
    · exact Or.inl rfl
    · rcases hcase with hnone | ⟨fields, hobj, hlook⟩
      · left
        simp only [getAIResponse]
        rw [hnone]
      · right
        simp only [getAIResponse]
        rw [hobj]
        simp [hlook]
  refine ⟨hres, ?_⟩
  intro env pr file content st chunk hai
  apply processChunk_skip
  rcases hres with h | h
  · exact Or.inl (by rw [hai, h])
  · exact Or.inr (by rw [hai, h])

/-- Witness for `c4_failure_isolation` at a thrown request. -/
theorem c4_witness :
    getAIResponse AIRaw.err = (AIResult.errNull, true) ∨
    getAIResponse AIRaw.err = (AIResult.undef, false) :=
  (c4_failure_isolation AIRaw.err (Or.inl rfl)).1

/-- Claim C5: evaluation of the code at the failing input.  The claim
states that once a value is cached for a path — including the
empty-string fallback cached after a fetch failure — no later access
fetches again.  The source guards the fetch with `!fileCache[file.to]`,
which is `true` again when the cached value is the empty string, so a
parsed diff holding two FileChange entries with the same target path
issues two fetch requests for that path when the fetch fails (the same
happens when the file genuinely has empty content). -/
theorem c5_refetch_eval :
    (analyzeCode { fetchContent := fun _ => none, ai := fun _ => AIRaw.err }
        { owner := "o", repo := "r", pull_number := 1, title := "t",
          description := "d", headSha := "s" }
        [{ «to» := some ("a.ts"), chunks := [] },
         { «to» := some ("a.ts"), chunks := [] }]).trace
      = [Effect.apiGetContent ("a.ts"), Effect.logWarn,
         Effect.apiGetContent ("a.ts"), Effect.logWarn] :=
  rfl

/-- Claim C6.  A FileChange whose target is absent or the deletion
sentinel is never reviewed: the file-loop body returns the state
unchanged for it (no fetch, no prompt, no completion request, no
comments — its trace and comment contributions are empty), every anchor
`analyzeCode` aggregates has a path that is neither `/dev/null` nor
empty, and every submitted review carries only such anchors. -/
theorem c6_never_reviewed :
    (∀ env pr st file, (file.to = none ∨ file.to = some ("/dev/null")) →
      processFile env pr st file = st) ∧
    (∀ env pr files, ∀ c ∈ (analyzeCode env pr files).comments,
      c.path ≠ "/dev/null" ∧ c.path ≠ "") ∧
    (∀ env cs ev, Effect.apiCreateReview cs ev ∈ main env →
      ∀ c ∈ cs, c.path ≠ "/dev/null" ∧ c.path ≠ "") := by
  refine ⟨?_, ?_, ?_⟩
  · intro env pr st file h
    rcases h with h | h
    · simp [processFile, h, jsFalsyS]
    · simp [processFile, h]
  · intro env pr files c hc
    exact analyzeCode_comments env pr files c hc
  · intro env cs ev h c hc
    obtain ⟨hcs, _, _⟩ := main_createReview_mem env cs ev h
    rw [hcs] at hc
    exact runComments_good env c hc

/-- Witness for `c6_never_reviewed`: a deleted file leaves the state
untouched. -/
theorem c6_witness :
    processFile { fetchContent := fun _ => none, ai := fun _ => AIRaw.err }
      { owner := "o", repo := "r", pull_number := 1, title := "t",
        description := "d", headSha := "s" }
      { cache := [], comments := [], trace := [] }
      { «to» := some ("/dev/null"), chunks := [{ content := "@@", changes := [] }] }
      = { cache := [], comments := [], trace := [] } :=
  c6_never_reviewed.1 _ _ _ _ (Or.inr rfl)

/-- Claim C7.  A run submits no review when the aggregated anchor
sequence is empty, and exactly one batched review-creation request —
carrying exactly the aggregated anchors, with disposition "COMMENT" —
when it is non-empty. -/
theorem c7_submission : ∀ env : MainEnv,
    ((main env).countP isCreateReview = if runComments env = [] then 0 else 1) ∧
    (∀ cs ev, Effect.apiCreateReview cs ev ∈ main env →
      cs = runComments env ∧ ev = "COMMENT" ∧ cs ≠ []) :=
  fun env => ⟨main_count env, fun cs ev h => main_createReview_mem env cs ev h⟩

/-- Witness for `c7_submission` at a concrete unsupported-event run
(no submission occurs). -/
theorem c7_witness :
    (main sampleEnv).countP isCreateReview
      = if runComments sampleEnv = [] then 0 else 1 :=
  (c7_submission sampleEnv).1

/-- Claim C8.  For every hunk line as the specification classifies it,
the diff body the prompt embeds prefixes the line with its
`newLineNumber` when present, else its `oldLineNumber` when present,
else leaves it unprefixed: the source's rendering of the corresponding
`parse-diff` change record agrees with the specification's rendering on
all four line kinds.  (`createPrompt` embeds exactly
`chunk.changes.map changeLine` joined by newlines.) -/
theorem c8_line_numbering : ∀ l : Line, changeLine (toChange l) = specLineText l := by
  intro l
  cases l <;> rfl

/-- Witness for `c8_line_numbering` at a removed line. -/
theorem c8_witness :
    changeLine (toChange (Line.removed 7 "-x")) = specLineText (Line.removed 7 "-x") :=
  c8_line_numbering (Line.removed 7 "-x")

/-- Claim C9.  The prompt builder is deterministic: two invocations on
equal FileChange, hunk, PR context, and full-file content inputs
produce byte-identical prompt strings.  In the embedding `createPrompt`
is a pure function of exactly these four inputs (the source template
reads nothing else — no clock, no randomness), so equality of inputs
transports to equality of outputs. -/
theorem c9_deterministic : ∀ (f1 f2 : File) (ch1 ch2 : Chunk) (pr1 pr2 : PRDetails)
    (s1 s2 : String),
    f1 = f2 → ch1 = ch2 → pr1 = pr2 → s1 = s2 →
    createPrompt f1 ch1 pr1 s1 = createPrompt f2 ch2 pr2 s2 := by
  intro f1 f2 ch1 ch2 pr1 pr2 s1 s2 h1 h2 h3 h4
  rw [h1, h2, h3, h4]

/-- Witness for `c9_deterministic` at concrete equal inputs. -/
theorem c9_witness :
    createPrompt { «to» := some ("a.ts"), chunks := [] }
        { content := "@@ -1 +1 @@", changes := [] }
        { owner := "o", repo := "r", pull_number := 1, title := "t",
          description := "d", headSha := "s" } ("code")
      = createPrompt { «to» := some ("a.ts"), chunks := [] }
        { content := "@@ -1 +1 @@", changes := [] }
        { owner := "o", repo := "r", pull_number := 1, title := "t",
          description := "d", headSha := "s" } ("code") :=
  c9_deterministic _ _ _ _ _ _ _ _ rfl rfl rfl rfl

/-- Claim C10.  When the completion succeeds but the message content is
absent, empty, or whitespace-only, the substitute string is parsed and
the `reviews` lookup yields `undefined`: `getAIResponse` returns the
undefined result without logging, and the chunk loop body adds no
comments for that hunk, so the run continues without error. -/
theorem c10_empty_content : ∀ content : Option String,
    jsTrim (content.getD ("")) = "" →
    getAIResponse (AIRaw.success content) = (AIResult.undef, false) ∧
    (∀ env pr file fullFile st chunk,
      env.ai (createPrompt file chunk pr fullFile) = AIRaw.success content →
      (processChunk env pr file fullFile st chunk).comments = st.comments) := by
  intro content h
  have hnorm : normalizeContent content = "\x7b\x7d" := by
    cases content with
    | none => rfl
    | some s =>
      have hs : jsTrim s = "" := by simpa using h
      simp [normalizeContent, hs]
  have hget : getAIResponse (AIRaw.success content) = (AIResult.undef, false) := by
    simp only [getAIResponse]
    rw [hnorm]
    decide
  refine ⟨hget, ?_⟩
  intro env pr file fullFile st chunk hai
  exact (processChunk_skip env pr file fullFile st chunk
    (Or.inr (by rw [hai, hget]))).1

/-- Witness for `c10_empty_content` at whitespace-only content. -/
theorem c10_witness :
    getAIResponse (AIRaw.success (some "   ")) = (AIResult.undef, false) :=
  (c10_empty_content (some "   ") (by decide)).1

end AICodeReviewer
